import Mathlib

/-!
Shallow embedding of the X.509 certificate-chain utilities of
crypto/x509/utils/src/lib.rs (MobileCoin).

External collaborators (the pem crate, the x509-signature crate's
certificate views and checks, the std::time clock, and the
mc-crypto-keys Ed25519 decoder) are modelled as oracle functions
gathered in an environment `Env Cert` over an abstract certificate
type `Cert`; the code of the repository itself (the iterator `next`,
`verify_chain`, `mc_public_key`) is translated line by line against
those oracles.
-/

namespace MCX509

/-- Error type of the external x509-signature crate (only the variants
the repository's code and tests mention are listed; an extra variant
would change nothing below, the type is opaque to the code). -/
inductive X509Error where
  | BadDER
  | InvalidSignature
  | UnknownIssuer
  | CertNotValidYet
  | CertExpired
  deriving DecidableEq, Repr

/-- Error type of std::time::SystemTime::duration_since: carries the
offset by which the second time was later than self. -/
structure SystemTimeError where
  secs : Nat
  deriving DecidableEq, Repr

/-- The crate's ChainError enumeration (lib.rs lines 57-66). -/
inductive ChainError where
  | Empty
  | SystemTime
  | X509 (e : X509Error)
  deriving DecidableEq, Repr

/-- impl From of SystemTimeError for ChainError (lib.rs lines 68-72):
every clock error maps to ChainError.SystemTime, dropping the payload. -/
def ChainError.fromSystemTimeError (_src : SystemTimeError) : ChainError :=
  ChainError.SystemTime

/-- impl From of X509Error for ChainError (lib.rs lines 74-78). -/
def ChainError.fromX509Error (src : X509Error) : ChainError :=
  ChainError.X509 src

/-- Error type of the external mc-crypto-keys crate (only the variant
the code constructs is needed; others are listed for opacity). -/
inductive KeyError where
  | AlgorithmMismatch
  | LengthMismatch (size : Nat)
  | InvalidPublicKey
  deriving DecidableEq, Repr

/-- An Ed25519 public key from mc-crypto-keys, opaque to this code. -/
structure Ed25519Public where
  bytes : List Nat
  deriving DecidableEq, Repr

/-- A PEM entry from the pem crate: a tag and the DER payload bytes.
The code under verification reads only the contents field. -/
structure Pem where
  tag : String
  contents : List Nat
  deriving DecidableEq, Repr

/-- The environment of external capabilities consumed by the code:

* checkIssuedBy c p: x509-signature's cert.check_issued_by(prev);
* checkSelfIssued c: x509-signature's cert.check_self_issued();
* validAtTimestamp c t: x509-signature's cert.valid_at_timestamp(t);
* clock n: the n-th read of SystemTime::now().duration_since(UNIX_EPOCH)
  within one call, already converted by .as_secs() as i64 (the loop
  reads the clock once per iteration, so reads are indexed);
* asn1Representable t: whether ASN1Time::try_from(t) succeeds (the
  expect in the debug print panics exactly when it does not);
* spki c: the bytes of cert.subject_public_key_info().spki();
* ed25519FromDer: mc-crypto-keys' Ed25519Public::try_from_der. -/
structure Env (Cert : Type) where
  checkIssuedBy : Cert → Cert → Except X509Error Unit
  checkSelfIssued : Cert → Except X509Error Unit
  validAtTimestamp : Cert → Int → Except X509Error Unit
  clock : Nat → Except SystemTimeError Int
  asn1Representable : Int → Bool
  spki : Cert → List Nat
  ed25519FromDer : List Nat → Except KeyError Ed25519Public

/-- The iterator state of X509CertificateIter (lib.rs lines 14-18):
a borrowed Pem slice and a cursor. -/
structure X509CertificateIter where
  pem_slice : List Pem
  offset : Nat
  deriving DecidableEq, Repr

/-- X509CertificateIter::new (lib.rs lines 20-27). -/
def X509CertificateIter.new (pems : List Pem) : X509CertificateIter :=
  { pem_slice := pems, offset := 0 }

/-- Iterator::next for X509CertificateIter (lib.rs lines 32-39).
parse is x509_signature::parse_certificate; the Rust .ok() is
Except.toOption. The out-of-bounds arm is unreachable from a fresh
iterator (offset never exceeds the length). Returns the yielded item
together with the successor state, since the Rust method mutates self. -/
def X509CertificateIter.next {Cert : Type} (parse : List Nat → Except X509Error Cert)
    (self : X509CertificateIter) : Option Cert × X509CertificateIter :=
  if self.offset = self.pem_slice.length then
    (none, self)
  else
    let stepped : X509CertificateIter := { self with offset := self.offset + 1 }
    match stepped.pem_slice[stepped.offset - 1]? with
    | none => (none, stepped)
    | some p => ((parse p.contents).toOption, stepped)

/-- n successive calls of next, collecting every returned item (also
the none items), together with the final iterator state. -/
def nextCalls {Cert : Type} (parse : List Nat → Except X509Error Cert) :
    X509CertificateIter → Nat → List (Option Cert) × X509CertificateIter
  | it, 0 => ([], it)
  | it, n + 1 =>
    let fst_call := X509CertificateIter.next parse it
    let rest := nextCalls parse fst_call.2 n
    (fst_call.1 :: rest.1, rest.2)

/-- Standard Rust iterator consumption (for-loop, collect,
Vec::from_iter): call next repeatedly and stop at the first none.
Structured with explicit fuel so that it computes by rfl; fuel
pem_slice.length + 1 - offset always suffices, because every some item
strictly advances the cursor towards the length, where next yields
none. -/
def collectWithFuel {Cert : Type} (parse : List Nat → Except X509Error Cert) :
    Nat → X509CertificateIter → List Cert
  | 0, _ => []
  | fuel + 1, it =>
    match X509CertificateIter.next parse it with
    | (none, _) => []
    | (some c, it2) => c :: collectWithFuel parse fuel it2

/-- collect on the iterator, as a Rust consumer performs it. -/
def X509CertificateIter.collect {Cert : Type} (parse : List Nat → Except X509Error Cert)
    (self : X509CertificateIter) : List Cert :=
  collectWithFuel parse (self.pem_slice.length + 1 - self.offset) self

/-- The linkage check of one loop iteration (lib.rs lines 99-103):
check_issued_by against the previous certificate when one exists,
check_self_issued otherwise. -/
def linkRes {Cert : Type} (env : Env Cert) (previous : Option Cert) (cert : Cert) :
    Except X509Error Unit :=
  match previous with
  | some prev_cert => env.checkIssuedBy cert prev_cert
  | none => env.checkSelfIssued cert

/-- Outcome of one loop iteration of verify_chain. -/
inductive StepRes where
  | ok
  | fail (e : ChainError)
  | panicked
  deriving DecidableEq, Repr

/-- One iteration of the verify_chain loop body (lib.rs lines 97-121):
linkage check, then the clock read (its error converts to
ChainError.SystemTime via the From impl), then the expect on
ASN1Time::try_from inside the eprintln (a panic when the timestamp is
not representable), then valid_at_timestamp. -/
def stepRes {Cert : Type} (env : Env Cert) (previous : Option Cert) (cert : Cert)
    (index : Nat) : StepRes :=
  match linkRes env previous cert with
  | Except.error e => StepRes.fail (ChainError.fromX509Error e)
  | Except.ok _ =>
    match env.clock index with
    | Except.error e => StepRes.fail (ChainError.fromSystemTimeError e)
    | Except.ok timestamp =>
      if env.asn1Representable timestamp then
        match env.validAtTimestamp cert timestamp with
        | Except.error e => StepRes.fail (ChainError.fromX509Error e)
        | Except.ok _ => StepRes.ok
      else StepRes.panicked

/-- Result of verify_chain, with a separate constructor recording a
panic of the expect inside the loop (Rust would unwind there, so no
Result value is produced). -/
inductive VerifyResult where
  | ok (count : Nat)
  | err (e : ChainError)
  | panicked
  deriving DecidableEq, Repr

/-- The loop of verify_chain (lib.rs lines 97-122), with the mutable
locals previous, index and cert_count passed explicitly. On success of
an iteration the code sets previous to the current certificate and
cert_count to index + 1. Returns the result together with the final
value of cert_count (the Rust local, exposed for specification). -/
def verifyChainFrom {Cert : Type} (env : Env Cert) :
    List Cert → Option Cert → Nat → Nat → VerifyResult × Nat
  | [], _, _, cert_count => (VerifyResult.ok cert_count, cert_count)
  | cert :: rest, previous, index, cert_count =>
    match stepRes env previous cert index with
    | StepRes.fail e => (VerifyResult.err e, cert_count)
    | StepRes.panicked => (VerifyResult.panicked, cert_count)
    | StepRes.ok => verifyChainFrom env rest (some cert) (index + 1) (index + 1)

/-- verify_chain (lib.rs lines 89-125): the empty check first, then
the loop with previous = None, index = 0, cert_count = 0. -/
def verify_chain {Cert : Type} (env : Env Cert) (chain : List Cert) : VerifyResult :=
  if chain.isEmpty then VerifyResult.err ChainError.Empty
  else (verifyChainFrom env chain none 0 0).1

/-- The final value of the cert_count local of verify_chain (0 when
the chain is empty, since the early return leaves it untouched). -/
def verifyChainCount {Cert : Type} (env : Env Cert) (chain : List Cert) : Nat :=
  if chain.isEmpty then 0
  else (verifyChainFrom env chain none 0 0).2

/-- Observable operations performed by the verify_chain loop, each
tagged with the enumerate index of the iteration performing it. -/
inductive Event (Cert : Type) where
  | selfIssuedCheck (index : Nat) (cert : Cert)
  | issuedByCheck (index : Nat) (cert : Cert) (prev : Cert)
  | clockRead (index : Nat)
  | validityCheck (index : Nat) (cert : Cert) (timestamp : Int)
  deriving DecidableEq, Repr

/-- The iteration index an event is tagged with. -/
def Event.index {Cert : Type} : Event Cert → Nat
  | Event.selfIssuedCheck i _ => i
  | Event.issuedByCheck i _ _ => i
  | Event.clockRead i => i
  | Event.validityCheck i _ _ => i

/-- The linkage event an iteration emits: the self-issuance check on
the first iteration, the issued-by check against previous afterwards. -/
def linkEvent {Cert : Type} (previous : Option Cert) (cert : Cert) (index : Nat) :
    Event Cert :=
  match previous with
  | some prev_cert => Event.issuedByCheck index cert prev_cert
  | none => Event.selfIssuedCheck index cert

/-- The operations one iteration performs, in execution order: the
linkage check always comes first; the clock is read only if linkage
passed; valid_at_timestamp runs only if the clock read succeeded and
the timestamp survived the ASN1Time expect. -/
def stepTrace {Cert : Type} (env : Env Cert) (previous : Option Cert) (cert : Cert)
    (index : Nat) : List (Event Cert) :=
  linkEvent previous cert index ::
    match linkRes env previous cert with
    | Except.error _ => []
    | Except.ok _ =>
      Event.clockRead index ::
        match env.clock index with
        | Except.error _ => []
        | Except.ok timestamp =>
          if env.asn1Representable timestamp then
            [Event.validityCheck index cert timestamp]
          else []

/-- The operations the verify_chain loop performs, in execution order:
each iteration's operations, for as long as iterations keep
succeeding. -/
def verifyChainTraceFrom {Cert : Type} (env : Env Cert) :
    List Cert → Option Cert → Nat → List (Event Cert)
  | [], _, _ => []
  | cert :: rest, previous, index =>
    stepTrace env previous cert index ++
      match stepRes env previous cert index with
      | StepRes.ok => verifyChainTraceFrom env rest (some cert) (index + 1)
      | _ => []

/-- The operations verify_chain performs: none at all on the empty
chain (the Empty return precedes the loop). -/
def verifyChainTrace {Cert : Type} (env : Env Cert) (chain : List Cert) :
    List (Event Cert) :=
  if chain.isEmpty then []
  else verifyChainTraceFrom env chain none 0

/-- The previous certificate the loop holds when it reaches iteration
i of the given chain: none at iteration 0, the element at i - 1
afterwards. -/
def prevAt {Cert : Type} (chain : List Cert) : Nat → Option Cert
  | 0 => none
  | i + 1 => chain[i]?

/-- The outcome iteration i of verify_chain on the given chain has,
were it reached (none when i is out of range). -/
def chainStep {Cert : Type} (env : Env Cert) (chain : List Cert) (i : Nat) :
    Option StepRes :=
  (chain[i]?).map (fun c => stepRes env (prevAt chain i) c i)

/-- The linkage-check outcome of iteration i on the given chain. -/
def chainLinkRes {Cert : Type} (env : Env Cert) (chain : List Cert) (i : Nat) :
    Option (Except X509Error Unit) :=
  (chain[i]?).map (fun c => linkRes env (prevAt chain i) c)

/-- A list of key types supported by both X.509 and mc-crypto-keys
(lib.rs lines 128-132). -/
inductive PublicKeyType where
  | Ed25519 (key : Ed25519Public)
  deriving DecidableEq, Repr

/-- X509KeyExtrator::mc_public_key (lib.rs lines 141-149): try the
spki bytes as an Ed25519 DER key; on any failure return
AlgorithmMismatch. -/
def mc_public_key {Cert : Type} (env : Env Cert) (cert : Cert) :
    Except KeyError PublicKeyType :=
  match env.ed25519FromDer (env.spki cert) with
  | Except.ok pubkey => Except.ok (PublicKeyType.Ed25519 pubkey)
  | Except.error _ => Except.error KeyError.AlgorithmMismatch

/-! Concrete instantiations used to evaluate the model on explicit
inputs: certificates are natural numbers, the oracles are total
functions chosen per scenario. -/

/-- An environment in which every check passes: all certificates are
self-issued and issued by anything, always valid, the clock reads 5,
every timestamp is ASN1-representable, and every spki is an Ed25519
key. -/
def envAllOk : Env Nat where
  checkIssuedBy := fun _ _ => Except.ok ()
  checkSelfIssued := fun _ => Except.ok ()
  validAtTimestamp := fun _ _ => Except.ok ()
  clock := fun _ => Except.ok 5
  asn1Representable := fun _ => true
  spki := fun _ => [7]
  ed25519FromDer := fun bs => Except.ok { bytes := bs }

/-- Like envAllOk, but no certificate is issued by any other: the
linkage check fails from the second certificate on. -/
def envLinkFail : Env Nat :=
  { envAllOk with checkIssuedBy := fun _ _ => Except.error X509Error.UnknownIssuer }

/-- Like envAllOk, but the clock cannot be read. -/
def envClockFail : Env Nat :=
  { envAllOk with clock := fun _ => Except.error { secs := 1 } }

/-- A concrete parse oracle: the byte strings of entries 1 and 3 parse
(to certificates 1 and 3), everything else is malformed DER. -/
def parseByte : List Nat → Except X509Error Nat
  | [1] => Except.ok 1
  | [3] => Except.ok 3
  | _ => Except.error X509Error.BadDER

/-- Three PEM entries of which the middle one does not parse as a
certificate. -/
def pemsMixed : List Pem :=
  [{ tag := "cert0", contents := [1] },
   { tag := "junk", contents := [2] },
   { tag := "cert2", contents := [3] }]

/-! Helper lemmas about the iterator. -/

/-- next on an in-range cursor yields the parse of the current entry
and advances the cursor. -/
theorem next_at {Cert : Type} (parse : List Nat → Except X509Error Cert)
    (pems : List Pem) (i : Nat) (h : i < pems.length) :
    X509CertificateIter.next parse { pem_slice := pems, offset := i }
      = ((parse pems[i].contents).toOption, { pem_slice := pems, offset := i + 1 }) := by
  have hne : i ≠ pems.length := Nat.ne_of_lt h
  simp only [X509CertificateIter.next, hne, if_false]
  simp [List.getElem?_eq_getElem h]

/-- next on an exhausted cursor yields none and does not move. -/
theorem next_end {Cert : Type} (parse : List Nat → Except X509Error Cert)
    (pems : List Pem) :
    X509CertificateIter.next parse { pem_slice := pems, offset := pems.length }
      = (none, { pem_slice := pems, offset := pems.length }) := by
  simp [X509CertificateIter.next]

/-- n calls of next starting at cursor i, with i + n in range, yield
one parse attempt per entry, in order, and leave the cursor at i + n. -/
theorem nextCalls_window {Cert : Type} (parse : List Nat → Except X509Error Cert)
    (pems : List Pem) :
    ∀ (n i : Nat), i + n ≤ pems.length →
      nextCalls parse { pem_slice := pems, offset := i } n
        = (((pems.drop i).take n).map (fun p => (parse p.contents).toOption),
           { pem_slice := pems, offset := i + n }) := by
  intro n
  induction n with
  | zero => intro i _; simp [nextCalls]
  | succ n ih =>
    intro i hin
    have hi : i < pems.length := by omega
    have hdrop : pems.drop i = pems[i] :: pems.drop (i + 1) :=
      List.drop_eq_getElem_cons hi
    have ih2 := ih (i + 1) (by omega)
    simp only [nextCalls, next_at parse pems i hi, ih2, hdrop, List.take_succ_cons,
      List.map_cons]
    have : i + 1 + n = i + (n + 1) := by omega
    rw [this]

/-- Every call of next past the end yields none and stays put. -/
theorem nextCalls_exhausted {Cert : Type} (parse : List Nat → Except X509Error Cert)
    (pems : List Pem) :
    ∀ k, nextCalls parse { pem_slice := pems, offset := pems.length } k
      = (List.replicate k none, { pem_slice := pems, offset := pems.length }) := by
  intro k
  induction k with
  | zero => simp [nextCalls]
  | succ k ih => simp [nextCalls, next_end, ih, List.replicate_succ]

/-- C9: the certificate sequencer's iterator is not fused: a parse
failure at position i makes that call of next return none while the
cursor still advances past the entry, so the following call attempts
entry i + 1; over exactly len(input) calls from a fresh iterator, the
i-th call returns exactly the parse attempt of entry i (every entry
attempted exactly once, in order, the cursor sitting at i after i
calls), and only calls beyond that point always return none. -/
theorem iter_next_attempts_all (Cert : Type) (parse : List Nat → Except X509Error Cert)
    (pems : List Pem) :
    (nextCalls parse (X509CertificateIter.new pems) pems.length).1
        = pems.map (fun p => (parse p.contents).toOption)
  ∧ (∀ i, i ≤ pems.length →
      (nextCalls parse (X509CertificateIter.new pems) i).2
        = { pem_slice := pems, offset := i })
  ∧ (∀ k, (nextCalls parse (nextCalls parse (X509CertificateIter.new pems) pems.length).2 k).1
        = List.replicate k none) := by
  have hwin := nextCalls_window parse pems
  have hfull := hwin pems.length 0 (by omega)
  simp only [List.drop_zero, List.take_length, Nat.zero_add] at hfull
  refine ⟨?_, ?_, ?_⟩
  · simp [X509CertificateIter.new, hfull]
  · intro i hi
    have h := hwin i 0 (by omega)
    simp only [List.drop_zero, Nat.zero_add] at h
    simp [X509CertificateIter.new, h]
  · intro k
    have h2 : (nextCalls parse (X509CertificateIter.new pems) pems.length).2
        = { pem_slice := pems, offset := pems.length } := by
      simp [X509CertificateIter.new, hfull]
    rw [h2, nextCalls_exhausted]

/-- Witness for iter_next_attempts_all at the concrete mixed bundle:
three calls attempt all three entries (the middle one failing), and
after two calls the cursor is at 2. -/
theorem iter_next_attempts_all_witness :
    (nextCalls parseByte (X509CertificateIter.new pemsMixed) 3).1
      = [some 1, none, some 3]
  ∧ (nextCalls parseByte (X509CertificateIter.new pemsMixed) 2).2
      = { pem_slice := pemsMixed, offset := 2 } := by
  have h := iter_next_attempts_all Nat parseByte pemsMixed
  exact ⟨h.1, h.2.1 2 (by decide)⟩

/-- C2 (evaluation at the failing input): on a bundle whose middle
entry does not parse, the raw next calls do attempt every entry, but a
standard iterator consumer (collect, a for loop) stops at the none the
failing entry produces: it yields only the first certificate, not the
list of all successfully parsed entries. -/
theorem collect_stops_at_parse_failure :
    X509CertificateIter.collect parseByte (X509CertificateIter.new pemsMixed) = [1]
  ∧ pemsMixed.filterMap (fun p => (parseByte p.contents).toOption) = [1, 3]
  ∧ X509CertificateIter.collect parseByte (X509CertificateIter.new pemsMixed)
      ≠ pemsMixed.filterMap (fun p => (parseByte p.contents).toOption)
  ∧ (nextCalls parseByte (X509CertificateIter.new pemsMixed) 3).1
      = [some 1, none, some 3] := by
  decide

/-- C4: verify_chain on the empty chain returns the Empty error, and
its trace is empty: no linkage, temporal or clock operation is
performed at all. -/
theorem verify_chain_empty (Cert : Type) (env : Env Cert) :
    verify_chain env ([] : List Cert) = VerifyResult.err ChainError.Empty
  ∧ verifyChainTrace env ([] : List Cert) = [] :=
  ⟨rfl, rfl⟩

/-- C8: mc_public_key returns Ok with the Ed25519 variant carrying the
parsed key exactly when the certificate's subject-public-key-info
parses as an Ed25519 key in DER form; otherwise it returns the
AlgorithmMismatch error, and no other outcome exists. -/
theorem mc_public_key_spec (Cert : Type) (env : Env Cert) (cert : Cert) :
    (∀ k, mc_public_key env cert = Except.ok (PublicKeyType.Ed25519 k)
        ↔ env.ed25519FromDer (env.spki cert) = Except.ok k)
  ∧ ((∃ e, env.ed25519FromDer (env.spki cert) = Except.error e)
      ↔ mc_public_key env cert = Except.error KeyError.AlgorithmMismatch)
  ∧ ∀ r, mc_public_key env cert = r →
      (∃ k, r = Except.ok (PublicKeyType.Ed25519 k))
        ∨ r = Except.error KeyError.AlgorithmMismatch := by
  cases h : env.ed25519FromDer (env.spki cert) with
  | error e0 =>
    refine ⟨?_, ?_, ?_⟩
    · intro k; simp [mc_public_key, h]
    · simp [mc_public_key, h]
    · intro r hr; right; rw [← hr]; simp [mc_public_key, h]
  | ok k0 =>
    refine ⟨?_, ?_, ?_⟩
    · intro k; simp [mc_public_key, h]
    · simp [mc_public_key, h]
    · intro r hr
      left
      exact ⟨k0, by rw [← hr]; simp [mc_public_key, h]⟩

/-- Witness for mc_public_key_spec at a concrete environment whose
spki bytes decode as an Ed25519 key. -/
theorem mc_public_key_spec_witness :
    mc_public_key envAllOk (0 : Nat)
      = Except.ok (PublicKeyType.Ed25519 { bytes := [7] }) :=
  ((mc_public_key_spec Nat envAllOk 0).1 { bytes := [7] }).mpr rfl

/-! Helper lemmas about the verify_chain loop. -/

/-- The previous certificate at iteration i + 1 is the element at i. -/
theorem prevAt_succ {Cert : Type} (chain : List Cert) (i : Nat) (h : i < chain.length) :
    prevAt chain (i + 1) = some chain[i] := by
  simp [prevAt, List.getElem?_eq_getElem h]

/-- Unfolding one successful iteration of the loop, phrased on the
suffix starting at iteration i. -/
theorem verifyChainFrom_advance {Cert : Type} (env : Env Cert) (chain : List Cert)
    (i : Nat) (hi : i < chain.length) (hok : chainStep env chain i = some StepRes.ok) :
    verifyChainFrom env (chain.drop i) (prevAt chain i) i i
      = verifyChainFrom env (chain.drop (i + 1)) (prevAt chain (i + 1)) (i + 1) (i + 1) := by
  have hg : chain[i]? = some chain[i] := List.getElem?_eq_getElem hi
  have hstep : stepRes env (prevAt chain i) chain[i] i = StepRes.ok := by
    simp [chainStep, hg] at hok
    exact hok
  rw [List.drop_eq_getElem_cons hi]
  simp [verifyChainFrom, hstep, prevAt_succ chain i hi]

/-- As long as every iteration before i succeeds, the whole run equals
the run of the suffix starting at iteration i. -/
theorem verifyChainFrom_run_to {Cert : Type} (env : Env Cert) (chain : List Cert) :
    ∀ i, i ≤ chain.length → (∀ j, j < i → chainStep env chain j = some StepRes.ok) →
      verifyChainFrom env chain none 0 0
        = verifyChainFrom env (chain.drop i) (prevAt chain i) i i := by
  intro i
  induction i with
  | zero => intro _ _; rfl
  | succ i ih =>
    intro hle hok
    rw [ih (by omega) (fun j hj => hok j (by omega))]
    exact verifyChainFrom_advance env chain i (by omega) (hok i (by omega))

/-- When every iteration succeeds, the run returns Ok with the chain
length, and the cert_count local also ends at the chain length. -/
theorem verifyChainFrom_all_ok {Cert : Type} (env : Env Cert) (chain : List Cert)
    (h : ∀ j, j < chain.length → chainStep env chain j = some StepRes.ok) :
    verifyChainFrom env chain none 0 0 = (VerifyResult.ok chain.length, chain.length) := by
  rw [verifyChainFrom_run_to env chain chain.length le_rfl h]
  simp [verifyChainFrom, List.drop_length]

/-- When the first failing iteration is i and it fails with e, the run
returns the error e and the cert_count local ends at i. -/
theorem verifyChainFrom_fail_at {Cert : Type} (env : Env Cert) (chain : List Cert)
    (i : Nat) (e : ChainError) (hi : i < chain.length)
    (hok : ∀ j, j < i → chainStep env chain j = some StepRes.ok)
    (hstep : chainStep env chain i = some (StepRes.fail e)) :
    verifyChainFrom env chain none 0 0 = (VerifyResult.err e, i) := by
  rw [verifyChainFrom_run_to env chain i (le_of_lt hi) hok]
  have hg : chain[i]? = some chain[i] := List.getElem?_eq_getElem hi
  have hstep2 : stepRes env (prevAt chain i) chain[i] i = StepRes.fail e := by
    simp [chainStep, hg] at hstep
    exact hstep
  rw [List.drop_eq_getElem_cons hi]
  simp [verifyChainFrom, hstep2]

/-- Converse: an Ok result of the suffix run means every remaining
iteration succeeds and the count is the chain length. -/
theorem verifyChainFrom_ok_inv_aux {Cert : Type} (env : Env Cert) (chain : List Cert) :
    ∀ (k i : Nat), chain.length ≤ i + k → i ≤ chain.length →
      ∀ n : Nat,
        (verifyChainFrom env (chain.drop i) (prevAt chain i) i i).1 = VerifyResult.ok n →
        (∀ j, i ≤ j → j < chain.length → chainStep env chain j = some StepRes.ok)
          ∧ n = chain.length
          ∧ (verifyChainFrom env (chain.drop i) (prevAt chain i) i i).2 = chain.length := by
  intro k
  induction k with
  | zero =>
    intro i hk hle n hok
    have hi : i = chain.length := by omega
    subst hi
    have hn : n = chain.length := by
      rw [List.drop_length] at hok
      simp [verifyChainFrom] at hok
      omega
    refine ⟨fun j hj1 hj2 => absurd hj2 (by omega), hn, ?_⟩
    rw [List.drop_length]
    rfl
  | succ k ih =>
    intro i hk hle n hok
    by_cases hi : i = chain.length
    · subst hi
      have hn : n = chain.length := by
        rw [List.drop_length] at hok
        simp [verifyChainFrom] at hok
        omega
      refine ⟨fun j hj1 hj2 => absurd hj2 (by omega), hn, ?_⟩
      rw [List.drop_length]
      rfl
    · have hilt : i < chain.length := by omega
      have hg : chain[i]? = some chain[i] := List.getElem?_eq_getElem hilt
      rw [List.drop_eq_getElem_cons hilt] at hok ⊢
      cases hstep : stepRes env (prevAt chain i) chain[i] i with
      | fail e => simp [verifyChainFrom, hstep] at hok
      | panicked => simp [verifyChainFrom, hstep] at hok
      | ok =>
        simp only [verifyChainFrom, hstep] at hok ⊢
        rw [← prevAt_succ chain i hilt] at hok ⊢
        obtain ⟨hall, hn, hsnd⟩ := ih (i + 1) (by omega) (by omega) n hok
        refine ⟨?_, hn, hsnd⟩
        intro j hj1 hj2
        rcases Nat.eq_or_lt_of_le hj1 with hj | hj
        · subst hj
          simp [chainStep, hg, hstep]
        · exact hall j (by omega) hj2

/-- Converse: an error result of the suffix run pinpoints a first
failing iteration carrying exactly that error. -/
theorem verifyChainFrom_err_inv_aux {Cert : Type} (env : Env Cert) (chain : List Cert) :
    ∀ (k i : Nat), chain.length ≤ i + k → i ≤ chain.length →
      ∀ e : ChainError,
        (verifyChainFrom env (chain.drop i) (prevAt chain i) i i).1 = VerifyResult.err e →
        ∃ f, i ≤ f ∧ f < chain.length
          ∧ (∀ j, i ≤ j → j < f → chainStep env chain j = some StepRes.ok)
          ∧ chainStep env chain f = some (StepRes.fail e) := by
  intro k
  induction k with
  | zero =>
    intro i hk hle e hok
    have hi : i = chain.length := by omega
    subst hi
    rw [List.drop_length] at hok
    simp [verifyChainFrom] at hok
  | succ k ih =>
    intro i hk hle e hok
    by_cases hi : i = chain.length
    · subst hi
      rw [List.drop_length] at hok
      simp [verifyChainFrom] at hok
    · have hilt : i < chain.length := by omega
      have hg : chain[i]? = some chain[i] := List.getElem?_eq_getElem hilt
      rw [List.drop_eq_getElem_cons hilt] at hok
      cases hstep : stepRes env (prevAt chain i) chain[i] i with
      | fail e0 =>
        simp only [verifyChainFrom, hstep] at hok
        obtain rfl : e0 = e := by simpa using hok
        exact ⟨i, le_rfl, hilt, fun j hj1 hj2 => absurd hj1 (by omega), by
          simp [chainStep, hg, hstep]⟩
      | panicked => simp [verifyChainFrom, hstep] at hok
      | ok =>
        simp only [verifyChainFrom, hstep] at hok
        rw [← prevAt_succ chain i hilt] at hok
        obtain ⟨f, hf1, hf2, hf3, hf4⟩ := ih (i + 1) (by omega) (by omega) e hok
        refine ⟨f, by omega, hf2, ?_, hf4⟩
        intro j hj1 hj2
        rcases Nat.eq_or_lt_of_le hj1 with hj | hj
        · subst hj
          simp [chainStep, hg, hstep]
        · exact hf3 j (by omega) hj2

/-! Helper lemmas about the trace. -/

/-- Correctness of one event with respect to the chain it was produced
from: self-issuance checks only happen at iteration 0 on the element
at index 0; an issued-by check at iteration i checks the element at
index i against the element at index i - 1 (never any other member);
clock reads and validity checks belong to in-range iterations, the
latter on the element at that index. -/
def eventOk {Cert : Type} (chain : List Cert) : Event Cert → Prop
  | Event.selfIssuedCheck i c => i = 0 ∧ chain[0]? = some c
  | Event.issuedByCheck i c p => 1 ≤ i ∧ chain[i]? = some c ∧ chain[i - 1]? = some p
  | Event.clockRead i => i < chain.length
  | Event.validityCheck i c _ => chain[i]? = some c

/-- An event is the linkage check of iteration i. -/
def isLinkAt {Cert : Type} (i : Nat) : Event Cert → Prop
  | Event.selfIssuedCheck j _ => j = i
  | Event.issuedByCheck j _ _ => j = i
  | Event.clockRead _ => False
  | Event.validityCheck _ _ _ => False

/-- Every event one iteration emits carries that iteration's index. -/
theorem stepTrace_index {Cert : Type} (env : Env Cert) (previous : Option Cert)
    (cert : Cert) (index : Nat) :
    ∀ ev ∈ stepTrace env previous cert index, ev.index = index := by
  intro ev hev
  simp only [stepTrace, List.mem_cons] at hev
  rcases hev with h | h
  · subst h; cases previous <;> simp [linkEvent, Event.index]
  · cases h1 : linkRes env previous cert with
    | error e => rw [h1] at h; simp at h
    | ok u =>
      rw [h1] at h
      simp only [List.mem_cons] at h
      rcases h with h | h
      · subst h; simp [Event.index]
      · cases h2 : env.clock index with
        | error e => rw [h2] at h; simp at h
        | ok t =>
          rw [h2] at h
          by_cases h3 : env.asn1Representable t
          · simp only [h3, if_true, List.mem_singleton] at h
            subst h; simp [Event.index]
          · simp only [eq_false_of_ne_true] at h3
            simp [h3] at h

/-- Every event iteration i emits on a chain is correct for it. -/
theorem stepTrace_eventOk {Cert : Type} (env : Env Cert) (chain : List Cert) (i : Nat)
    (hi : i < chain.length) :
    ∀ ev ∈ stepTrace env (prevAt chain i) chain[i] i, eventOk chain ev := by
  intro ev hev
  have hg : chain[i]? = some chain[i] := List.getElem?_eq_getElem hi
  simp only [stepTrace, List.mem_cons] at hev
  rcases hev with h | h
  · subst h
    cases i with
    | zero => simp [prevAt, linkEvent, eventOk, hg]
    | succ j =>
      have hj : j < chain.length := by omega
      have hgj : chain[j]? = some chain[j] := List.getElem?_eq_getElem hj
      simp [prevAt, hgj, linkEvent, eventOk, hg]
  · cases h1 : linkRes env (prevAt chain i) chain[i] with
    | error e => rw [h1] at h; simp at h
    | ok u =>
      rw [h1] at h
      simp only [List.mem_cons] at h
      rcases h with h | h
      · subst h; simpa [eventOk] using hi
      · cases h2 : env.clock i with
        | error e => rw [h2] at h; simp at h
        | ok t =>
          rw [h2] at h
          by_cases h3 : env.asn1Representable t
          · simp only [h3, if_true, List.mem_singleton] at h
            subst h; simp [eventOk, hg]
          · simp only [eq_false_of_ne_true] at h3
            simp [h3] at h

/-- Every event the loop emits on a chain is correct for it. -/
theorem traceFrom_eventOk_aux {Cert : Type} (env : Env Cert) (chain : List Cert) :
    ∀ (k i : Nat), chain.length ≤ i + k → i ≤ chain.length →
      ∀ ev ∈ verifyChainTraceFrom env (chain.drop i) (prevAt chain i) i,
        eventOk chain ev := by
  intro k
  induction k with
  | zero =>
    intro i hk hle ev hev
    have hi : i = chain.length := by omega
    subst hi
    rw [List.drop_length] at hev
    simp [verifyChainTraceFrom] at hev
  | succ k ih =>
    intro i hk hle ev hev
    by_cases hi : i = chain.length
    · subst hi
      rw [List.drop_length] at hev
      simp [verifyChainTraceFrom] at hev
    · have hilt : i < chain.length := by omega
      rw [List.drop_eq_getElem_cons hilt] at hev
      simp only [verifyChainTraceFrom, List.mem_append] at hev
      rcases hev with h | h
      · exact stepTrace_eventOk env chain i hilt ev h
      · cases hstep : stepRes env (prevAt chain i) chain[i] i with
        | ok =>
          rw [hstep] at h
          rw [← prevAt_succ chain i hilt] at h
          exact ih (i + 1) (by omega) (by omega) ev h
        | fail e => rw [hstep] at h; simp at h
        | panicked => rw [hstep] at h; simp at h

/-- On an error exit, the cert_count local is at least the starting
iteration index. -/
theorem verifyChainFrom_err_snd_ge {Cert : Type} (env : Env Cert) :
    ∀ (rest : List Cert) (previous : Option Cert) (i : Nat) (e : ChainError) (f : Nat),
      verifyChainFrom env rest previous i i = (VerifyResult.err e, f) → i ≤ f := by
  intro rest
  induction rest with
  | nil =>
    intro previous i e f h
    simp [verifyChainFrom] at h
  | cons cert rest ih =>
    intro previous i e f h
    cases hstep : stepRes env previous cert i with
    | fail e0 =>
      simp only [verifyChainFrom, hstep] at h
      obtain ⟨-, rfl⟩ := Prod.mk.injEq .. ▸ h
      exact le_rfl
    | panicked => simp [verifyChainFrom, hstep] at h
    | ok =>
      simp only [verifyChainFrom, hstep] at h
      exact Nat.le_of_succ_le (ih (some cert) (i + 1) e f h)

/-- On an error exit with final count f, every event the loop emitted
belongs to an iteration of index at most f: no certificate past the
failing one is examined. -/
theorem traceFrom_index_le_of_err {Cert : Type} (env : Env Cert) :
    ∀ (rest : List Cert) (previous : Option Cert) (i : Nat) (e : ChainError) (f : Nat),
      verifyChainFrom env rest previous i i = (VerifyResult.err e, f) →
      ∀ ev ∈ verifyChainTraceFrom env rest previous i, ev.index ≤ f := by
  intro rest
  induction rest with
  | nil =>
    intro previous i e f h
    simp [verifyChainFrom] at h
  | cons cert rest ih =>
    intro previous i e f h ev hev
    simp only [verifyChainTraceFrom, List.mem_append] at hev
    cases hstep : stepRes env previous cert i with
    | fail e0 =>
      simp only [verifyChainFrom, hstep] at h
      obtain ⟨-, rfl⟩ := Prod.mk.injEq .. ▸ h
      rcases hev with hts | hN
      · exact le_of_eq (stepTrace_index env previous cert i ev hts)
      · rw [hstep] at hN; simp at hN
    | panicked => simp [verifyChainFrom, hstep] at h
    | ok =>
      simp only [verifyChainFrom, hstep] at h
      have hif : i + 1 ≤ f := verifyChainFrom_err_snd_ge env rest (some cert) (i + 1) e f h
      rcases hev with hts | hN
      · have := stepTrace_index env previous cert i ev hts
        omega
      · rw [hstep] at hN
        exact ih (some cert) (i + 1) e f h ev hN

/-- Every validity-check event in the trace is preceded by the linkage
check of the same iteration. -/
theorem traceFrom_validity_after_link {Cert : Type} (env : Env Cert) :
    ∀ (rest : List Cert) (previous : Option Cert) (i0 n i : Nat) (c : Cert) (t : Int),
      (verifyChainTraceFrom env rest previous i0)[n]? = some (Event.validityCheck i c t) →
      ∃ m lev, m < n ∧ (verifyChainTraceFrom env rest previous i0)[m]? = some lev
        ∧ isLinkAt i lev := by
  intro rest
  induction rest with
  | nil =>
    intro previous i0 n i c t h
    simp [verifyChainTraceFrom] at h
  | cons cert rest ih =>
    intro previous i0 n i c t h
    have hlink : isLinkAt i0 (linkEvent previous cert i0) := by
      cases previous <;> simp [linkEvent, isLinkAt]
    cases h1 : linkRes env previous cert with
    | error e =>
      have htr : verifyChainTraceFrom env (cert :: rest) previous i0
          = [linkEvent previous cert i0] := by
        simp [verifyChainTraceFrom, stepTrace, stepRes, h1]
      rw [htr] at h
      rcases n with _ | n
      · simp only [List.getElem?_cons_zero, Option.some_inj] at h
        cases previous <;> simp [linkEvent] at h
      · simp at h
    | ok u =>
      cases h2 : env.clock i0 with
      | error e =>
        have htr : verifyChainTraceFrom env (cert :: rest) previous i0
            = [linkEvent previous cert i0, Event.clockRead i0] := by
          simp [verifyChainTraceFrom, stepTrace, stepRes, h1, h2]
        rw [htr] at h
        rcases n with _ | _ | n
        · simp only [List.getElem?_cons_zero, Option.some_inj] at h
          cases previous <;> simp [linkEvent] at h
        · simp at h
        · simp at h
      | ok ts =>
        by_cases h3 : env.asn1Representable ts
        · cases h4 : env.validAtTimestamp cert ts with
          | error e =>
            have htr : verifyChainTraceFrom env (cert :: rest) previous i0
                = [linkEvent previous cert i0, Event.clockRead i0,
                   Event.validityCheck i0 cert ts] := by
              simp [verifyChainTraceFrom, stepTrace, stepRes, h1, h2, h3, h4]
            rw [htr] at h
            rcases n with _ | _ | _ | n
            · simp only [List.getElem?_cons_zero, Option.some_inj] at h
              cases previous <;> simp [linkEvent] at h
            · simp at h
            · simp only [List.getElem?_cons_succ, List.getElem?_cons_zero,
                Option.some_inj] at h
              injection h with hi0 hc ht
              subst hi0
              exact ⟨0, linkEvent previous cert i0, by omega, by simp [htr], hlink⟩
            · simp at h
          | ok v =>
            have htr : verifyChainTraceFrom env (cert :: rest) previous i0
                = linkEvent previous cert i0 :: Event.clockRead i0 ::
                  Event.validityCheck i0 cert ts ::
                  verifyChainTraceFrom env rest (some cert) (i0 + 1) := by
              simp [verifyChainTraceFrom, stepTrace, stepRes, h1, h2, h3, h4]
            rw [htr] at h ⊢
            rcases n with _ | _ | _ | n
            · simp only [List.getElem?_cons_zero, Option.some_inj] at h
              cases previous <;> simp [linkEvent] at h
            · simp at h
            · simp only [List.getElem?_cons_succ, List.getElem?_cons_zero,
                Option.some_inj] at h
              injection h with hi0 hc ht
              subst hi0
              exact ⟨0, linkEvent previous cert i0, by omega, rfl, hlink⟩
            · simp only [List.getElem?_cons_succ] at h
              obtain ⟨m, lev, hm, hpos, hlev⟩ := ih (some cert) (i0 + 1) n i c t h
              exact ⟨m + 3, lev, by omega, by simpa using hpos, hlev⟩
        · have h3f : env.asn1Representable ts = false := by
            simpa using h3
          have htr : verifyChainTraceFrom env (cert :: rest) previous i0
              = [linkEvent previous cert i0, Event.clockRead i0] := by
            simp [verifyChainTraceFrom, stepTrace, stepRes, h1, h2, h3f]
          rw [htr] at h
          rcases n with _ | _ | n
          · simp only [List.getElem?_cons_zero, Option.some_inj] at h
            cases previous <;> simp [linkEvent] at h
          · simp at h
          · simp at h

/-- C1: on a non-empty chain whose first certificate is self-issued,
whose every subsequent certificate is issued by its immediate
predecessor, and whose every certificate is temporally valid at the
clock reading of its own iteration (the reading succeeding and being
ASN1-representable, as any actual current time is), verify_chain
returns Ok with the chain length. -/
theorem verify_chain_ok_of_valid (Cert : Type) (env : Env Cert) (chain : List Cert)
    (hne : chain ≠ [])
    (hself : ∀ c, chain[0]? = some c → env.checkSelfIssued c = Except.ok ())
    (hlink : ∀ i c p, chain[i + 1]? = some c → chain[i]? = some p →
      env.checkIssuedBy c p = Except.ok ())
    (hvalid : ∀ i c, chain[i]? = some c →
      ∃ t, env.clock i = Except.ok t ∧ env.asn1Representable t = true
        ∧ env.validAtTimestamp c t = Except.ok ()) :
    verify_chain env chain = VerifyResult.ok chain.length := by
  have hsteps : ∀ j, j < chain.length → chainStep env chain j = some StepRes.ok := by
    intro j hj
    have hg : chain[j]? = some chain[j] := List.getElem?_eq_getElem hj
    obtain ⟨t, hc, hrep, hv⟩ := hvalid j chain[j] hg
    have hlinkj : linkRes env (prevAt chain j) chain[j] = Except.ok () := by
      cases j with
      | zero => exact hself chain[0] hg
      | succ j0 =>
        have hj0 : j0 < chain.length := by omega
        have hg0 : chain[j0]? = some chain[j0] := List.getElem?_eq_getElem hj0
        simp only [prevAt, hg0, linkRes]
        exact hlink j0 chain[j0 + 1] chain[j0] hg hg0
    simp [chainStep, hg, stepRes, hlinkj, hc, hrep, hv]
  have hrun := verifyChainFrom_all_ok env chain hsteps
  have hemp : chain.isEmpty = false := by
    cases chain
    · exact absurd rfl hne
    · rfl
  simp [verify_chain, hemp, hrun]

/-- Witness for verify_chain_ok_of_valid on a three-certificate chain
in an environment where every check passes. -/
theorem verify_chain_ok_of_valid_witness :
    verify_chain envAllOk [10, 11, 12] = VerifyResult.ok 3 :=
  verify_chain_ok_of_valid Nat envAllOk [10, 11, 12] (by decide)
    (fun _ _ => rfl) (fun _ _ _ _ _ => rfl)
    (fun _ _ _ => ⟨5, rfl, rfl, rfl⟩)

/-- C3: the trace of verify_chain opens with the self-issuance check
of the certificate at index 0; every self-issuance check in the trace
is of iteration 0 on the element at index 0, every issued-by check at
iteration i checks the element at index i against exactly the element
at index i - 1 (never any other chain member), and every temporal
validity check of an iteration is preceded in the trace by the linkage
check of the same iteration. -/
theorem verify_chain_check_structure (Cert : Type) (env : Env Cert) (chain : List Cert) :
    (∀ c, chain[0]? = some c →
      (verifyChainTrace env chain).head? = some (Event.selfIssuedCheck 0 c))
  ∧ (∀ ev ∈ verifyChainTrace env chain, eventOk chain ev)
  ∧ (∀ (n i : Nat) (c : Cert) (t : Int),
      (verifyChainTrace env chain)[n]? = some (Event.validityCheck i c t) →
      ∃ m lev, m < n ∧ (verifyChainTrace env chain)[m]? = some lev ∧ isLinkAt i lev) := by
  cases chain with
  | nil =>
    refine ⟨?_, ?_, ?_⟩
    · intro c h; simp at h
    · intro ev hev; simp [verifyChainTrace] at hev
    · intro n i c t h; simp [verifyChainTrace] at h
  | cons c0 rest =>
    have htr : verifyChainTrace env (c0 :: rest)
        = verifyChainTraceFrom env (c0 :: rest) none 0 := rfl
    refine ⟨?_, ?_, ?_⟩
    · intro c h
      simp only [List.getElem?_cons_zero, Option.some_inj] at h
      subst h
      rw [htr]
      simp [verifyChainTraceFrom, stepTrace, linkEvent, List.cons_append]
    · intro ev hev
      rw [htr] at hev
      exact traceFrom_eventOk_aux env (c0 :: rest) (c0 :: rest).length 0 (by omega)
        (by omega) ev hev
    · intro n i c t h
      rw [htr] at h ⊢
      exact traceFrom_validity_after_link env (c0 :: rest) none 0 n i c t h

/-- Witness for verify_chain_check_structure: on a concrete chain the
trace opens with the self-issuance check of the first certificate. -/
theorem verify_chain_check_structure_witness :
    (verifyChainTrace envAllOk [4, 6]).head? = some (Event.selfIssuedCheck 0 4) :=
  (verify_chain_check_structure Nat envAllOk [4, 6]).1 4 rfl

/-- C5: verify_chain returns Ok only if every iteration passed both
the linkage and the temporal check; and a non-Empty error is produced
by a first failing iteration i, every earlier iteration having passed,
such that no operation of the whole run touches an iteration of index
greater than i. -/
theorem verify_chain_short_circuit (Cert : Type) (env : Env Cert) (chain : List Cert) :
    (∀ n, verify_chain env chain = VerifyResult.ok n →
      ∀ j, j < chain.length → chainStep env chain j = some StepRes.ok)
  ∧ (∀ e, verify_chain env chain = VerifyResult.err e → e ≠ ChainError.Empty →
      ∃ i, i < chain.length
        ∧ (∀ j, j < i → chainStep env chain j = some StepRes.ok)
        ∧ chainStep env chain i = some (StepRes.fail e)
        ∧ ∀ ev ∈ verifyChainTrace env chain, ev.index ≤ i) := by
  constructor
  · intro n hok j hj
    by_cases hemp : chain.isEmpty
    · rw [verify_chain, if_pos hemp] at hok
      exact absurd hok (by simp)
    · rw [verify_chain, if_neg hemp] at hok
      obtain ⟨hall, -, -⟩ := verifyChainFrom_ok_inv_aux env chain chain.length 0
        (by omega) (by omega) n hok
      exact hall j (by omega) hj
  · intro e herr hne
    by_cases hemp : chain.isEmpty
    · rw [verify_chain, if_pos hemp] at herr
      have : ChainError.Empty = e := by simpa using herr
      exact absurd this.symm hne
    · rw [verify_chain, if_neg hemp] at herr
      obtain ⟨f, -, hf2, hf3, hf4⟩ := verifyChainFrom_err_inv_aux env chain chain.length 0
        (by omega) (by omega) e herr
      refine ⟨f, hf2, fun j hj => hf3 j (by omega) hj, hf4, ?_⟩
      have hpair : verifyChainFrom env chain none 0 0 = (VerifyResult.err e, f) :=
        verifyChainFrom_fail_at env chain f e hf2 (fun j hj => hf3 j (by omega) hj) hf4
      intro ev hev
      rw [verifyChainTrace, if_neg hemp] at hev
      exact traceFrom_index_le_of_err env chain none 0 e f hpair ev hev

/-- Witness for verify_chain_short_circuit: a two-certificate chain
whose second certificate is not issued by the first fails at a first
failing index with all trace events bounded by it. -/
theorem verify_chain_short_circuit_witness :
    ∃ i, i < 2
      ∧ (∀ j, j < i → chainStep envLinkFail [20, 21] j = some StepRes.ok)
      ∧ chainStep envLinkFail [20, 21] i
          = some (StepRes.fail (ChainError.X509 X509Error.UnknownIssuer))
      ∧ ∀ ev ∈ verifyChainTrace envLinkFail [20, 21], ev.index ≤ i :=
  (verify_chain_short_circuit Nat envLinkFail [20, 21]).2
    (ChainError.X509 X509Error.UnknownIssuer) rfl (by decide)

/-- C6 counterexample: on a two-certificate chain failing at iteration
1, the last successfully verified certificate sits at index 0, yet the
cert_count local at the moment of failure is 1, not 0: the count is
the number of verified certificates, not the index of the last one. -/
theorem verifyChainCount_not_last_index :
    verify_chain envLinkFail [20, 21]
        = VerifyResult.err (ChainError.X509 X509Error.UnknownIssuer)
  ∧ chainStep envLinkFail [20, 21] 0 = some StepRes.ok
  ∧ chainStep envLinkFail [20, 21] 1
      = some (StepRes.fail (ChainError.X509 X509Error.UnknownIssuer))
  ∧ verifyChainCount envLinkFail [20, 21] = 1
  ∧ (1 : Nat) ≠ 0 := by
  decide

/-- C6 (amended): on success the cert_count local equals the chain
length; at the moment a failure occurs it equals the number of
certificates successfully verified before the failure, i.e. the index
of the first failing certificate (one more than the index of the last
successfully verified certificate when one exists, 0 when the very
first certificate fails). -/
theorem verifyChainCount_spec (Cert : Type) (env : Env Cert) (chain : List Cert) :
    (∀ n, verify_chain env chain = VerifyResult.ok n →
      verifyChainCount env chain = chain.length)
  ∧ (∀ i e, i < chain.length →
      (∀ j, j < i → chainStep env chain j = some StepRes.ok) →
      chainStep env chain i = some (StepRes.fail e) →
      verifyChainCount env chain = i) := by
  constructor
  · intro n hok
    by_cases hemp : chain.isEmpty
    · rw [verify_chain, if_pos hemp] at hok
      exact absurd hok (by simp)
    · rw [verify_chain, if_neg hemp] at hok
      obtain ⟨hall, -, -⟩ := verifyChainFrom_ok_inv_aux env chain chain.length 0
        (by omega) (by omega) n hok
      have hrun := verifyChainFrom_all_ok env chain (fun j hj => hall j (by omega) hj)
      simp [verifyChainCount, if_neg hemp, hrun]
  · intro i e hi hok hfail
    have hemp : chain.isEmpty = false := by
      cases chain
      · simp at hi
      · rfl
    have hpair := verifyChainFrom_fail_at env chain i e hi hok hfail
    simp [verifyChainCount, hemp, hpair]

/-- Witness for verifyChainCount_spec at the failing two-certificate
chain: the count ends at 1, the index of the first failing
certificate. -/
theorem verifyChainCount_spec_witness :
    verifyChainCount envLinkFail [20, 21] = 1 :=
  (verifyChainCount_spec Nat envLinkFail [20, 21]).2 1
    (ChainError.X509 X509Error.UnknownIssuer) (by decide) (by decide) (by decide)

/-- C7: when the loop reaches an iteration whose linkage check passes
but whose clock read fails (the wall clock cannot be expressed as
seconds since the epoch), verify_chain returns the SystemTime error as
a typed result and in particular does not panic. -/
theorem verify_chain_systemTime_error (Cert : Type) (env : Env Cert) (chain : List Cert)
    (i : Nat) (st : SystemTimeError) (hi : i < chain.length)
    (hok : ∀ j, j < i → chainStep env chain j = some StepRes.ok)
    (hlink : chainLinkRes env chain i = some (Except.ok ()))
    (hclock : env.clock i = Except.error st) :
    verify_chain env chain = VerifyResult.err ChainError.SystemTime
      ∧ verify_chain env chain ≠ VerifyResult.panicked := by
  have hg : chain[i]? = some chain[i] := List.getElem?_eq_getElem hi
  have hlink2 : linkRes env (prevAt chain i) chain[i] = Except.ok () := by
    simp [chainLinkRes, hg] at hlink
    exact hlink
  have hstep : chainStep env chain i = some (StepRes.fail ChainError.SystemTime) := by
    simp [chainStep, hg, stepRes, hlink2, hclock, ChainError.fromSystemTimeError]
  have hemp : chain.isEmpty = false := by
    cases chain
    · simp at hi
    · rfl
  have hpair := verifyChainFrom_fail_at env chain i ChainError.SystemTime hi hok hstep
  constructor
  · simp [verify_chain, hemp, hpair]
  · simp [verify_chain, hemp, hpair]

/-- Witness for verify_chain_systemTime_error: a one-certificate chain
under a failing clock yields the SystemTime error. -/
theorem verify_chain_systemTime_error_witness :
    verify_chain envClockFail [30] = VerifyResult.err ChainError.SystemTime :=
  (verify_chain_systemTime_error Nat envClockFail [30] 0 { secs := 1 }
    (by decide) (by decide) rfl rfl).1

/-- C10: when every clock value obtained during the run is within the
range representable as an ASN1Time, the expect inside the loop's debug
print never fires: verify_chain never panics, on any chain. -/
theorem verify_chain_asn1_safe (Cert : Type) (env : Env Cert) (chain : List Cert)
    (hrep : ∀ i t, env.clock i = Except.ok t → env.asn1Representable t = true) :
    verify_chain env chain ≠ VerifyResult.panicked := by
  have hstep : ∀ (previous : Option Cert) (cert : Cert) (index : Nat),
      stepRes env previous cert index ≠ StepRes.panicked := by
    intro previous cert index h
    unfold stepRes at h
    cases h1 : linkRes env previous cert with
    | error e => simp [h1] at h
    | ok u =>
      cases h2 : env.clock index with
      | error e => simp [h1, h2] at h
      | ok t =>
        cases h3 : env.validAtTimestamp cert t with
        | error e => simp [h1, h2, h3, hrep index t h2] at h
        | ok v => simp [h1, h2, h3, hrep index t h2] at h
  have hloop : ∀ (rest : List Cert) (previous : Option Cert) (i cc : Nat),
      (verifyChainFrom env rest previous i cc).1 ≠ VerifyResult.panicked := by
    intro rest
    induction rest with
    | nil => intro previous i cc h; simp [verifyChainFrom] at h
    | cons cert rest ih =>
      intro previous i cc h
      cases hs : stepRes env previous cert i with
      | ok =>
        simp only [verifyChainFrom, hs] at h
        exact ih (some cert) (i + 1) (i + 1) h
      | fail e => simp [verifyChainFrom, hs] at h
      | panicked => exact hstep previous cert i hs
  by_cases hemp : chain.isEmpty
  · simp [verify_chain, hemp]
  · rw [verify_chain, if_neg hemp]
    exact hloop chain none 0 0

/-- Witness for verify_chain_asn1_safe at a concrete chain and an
environment whose clock values are all representable. -/
theorem verify_chain_asn1_safe_witness :
    verify_chain envAllOk [40] ≠ VerifyResult.panicked :=
  verify_chain_asn1_safe Nat envAllOk [40] (fun _ _ _ => rfl)

end MCX509
